import Mathlib

/-!
Verification of the quicksnip snippet converter (`src/converter.py`).

Strings are embedded as `List Char`; Python string operations
(`str.split`, `str.strip`, `str.replace(old, new, 1)`) are embedded as
executable functions on character lists with the same semantics.
The parser `parse_code`, the metadata cleaner `format_metadata` and the
category-merge step of `save_category_to_json` are translated directly
from the source.  JSON persistence is modelled at the level of JSON
values: `docToJson` mirrors the field order of `model_dump_json` and
`docOfJson` mirrors the schema validation of `model_validate_json`.
-/

set_option autoImplicit false

deriving instance DecidableEq for Except

namespace Quicksnip

/-! ### Python string primitives -/

/-- Python whitespace characters stripped by `str.strip()` (ASCII range,
the ones that can occur in a text line here). -/
def isPySpace (c : Char) : Bool :=
  c = ' ' || c = '\t' || c = '\n' || c = '\r' || c = Char.ofNat 11 || c = Char.ofNat 12

/-- Python `str.strip()`: remove whitespace from both ends. -/
def pyStrip (l : List Char) : List Char :=
  ((l.dropWhile isPySpace).reverse.dropWhile isPySpace).reverse

/-- Whether the first list is an initial segment of the second. -/
def isPrefixList : List Char → List Char → Bool
  | [], _ => true
  | _ :: _, [] => false
  | a :: as, b :: bs => a = b && isPrefixList as bs

/-- Python `str.replace(old, new, 1)` for nonempty `old`: replace the
first occurrence of `old` anywhere in the string, if any. -/
def replaceFirst : List Char → List Char → List Char → List Char
  | [], _old, _new => []
  | c :: cs, old, new =>
    if isPrefixList old (c :: cs) = true then new ++ (c :: cs).drop old.length
    else c :: replaceFirst cs old new

/-- Python `str.split(sep)` for a one-character separator: splits at every
occurrence, keeping empty segments; the empty string yields `[""]`. -/
def splitCharList (sep : Char) : List Char → List (List Char)
  | [] => [[]]
  | c :: cs =>
    if c = sep then [] :: splitCharList sep cs
    else
      match splitCharList sep cs with
      | [] => [[c]]
      | l :: ls => (c :: l) :: ls

/-! ### Data model -/

/-- `Snippet` model of the source (`title`, `description`, `code`, `tags`,
`author`), with strings as character lists. -/
structure Snippet where
  title : List Char
  description : List Char
  code : List (List Char)
  tags : List (List Char)
  author : List Char
deriving DecidableEq

/-- `Category` model of the source (`categoryName`, `snippets`). -/
structure Category where
  categoryName : List Char
  snippets : List Snippet
deriving DecidableEq

/-- `JSONModel.root`: the persisted document is a list of categories. -/
abbrev Document := List Category

/-- Error kinds of the specification: `FormatError` is the parser's
`SyntaxError`, `CorruptStateError` is a schema-validation failure when
loading the stored JSON. -/
inductive ConvError where
  | FormatError
  | CorruptStateError
deriving DecidableEq

/-! ### The parser -/

/-- `format_metadata(line)` from the source:
`line.replace("//", "", 1).replace("#", "", 1).strip()`. -/
def format_metadata (line : List Char) : List Char :=
  pyStrip (replaceFirst (replaceFirst line (("//").data) []) (("#").data) [])

/-- `parse_code(code, category=...)` from the source: split at newlines,
fail when fewer than 7 lines, read metadata from lines 0-4, copy lines 6
onward verbatim as the code, and wrap the snippet in a (new or given)
category. -/
def parse_code (code : List Char) (category : Option Category) : Except ConvError Category :=
  let code_lines := splitCharList '\n' code
  if code_lines.length < 7 then
    .error .FormatError
  else
    let snippet : Snippet :=
      { title := format_metadata (code_lines.getD 1 [])
        description := format_metadata (code_lines.getD 2 [])
        code := code_lines.drop 6
        tags := (splitCharList ',' (format_metadata (code_lines.getD 3 []))).map pyStrip
        author := format_metadata (code_lines.getD 4 []) }
    match category with
    | none =>
      .ok { categoryName := format_metadata (code_lines.getD 0 [])
            snippets := [snippet] }
    | some cat =>
      .ok { cat with snippets := cat.snippets ++ [snippet] }

/-! ### The merge step -/

/-- The category-merge loop of `save_category_to_json`: scan the stored
document for the first category with the same `categoryName`; append the
new category's snippets there, or append the whole category at the end
when no name matches (the `for ... else` of the source). -/
def mergeCategory (doc : Document) (category_object : Category) : Document :=
  match doc with
  | [] => [category_object]
  | category :: rest =>
    if category.categoryName = category_object.categoryName then
      { category with snippets := category.snippets ++ category_object.snippets } :: rest
    else
      category :: mergeCategory rest category_object

/-! ### First-occurrence removal, specified by index -/

/-- Index of the first occurrence of `pat` as a contiguous sublist. -/
def findSub (pat : List Char) : List Char → Option Nat
  | [] => if isPrefixList pat [] = true then some 0 else none
  | c :: cs =>
    if isPrefixList pat (c :: cs) = true then some 0
    else Option.map (fun n => n + 1) (findSub pat cs)

/-- Remove the first occurrence of `pat` from `l` (identity when `pat`
does not occur): an index-based specification of
`str.replace(pat, "", 1)`. -/
def removeFirstOcc (l pat : List Char) : List Char :=
  match findSub pat l with
  | none => l
  | some i => l.take i ++ l.drop (i + pat.length)

/-- The transformation claim C4 ascribes to `format_metadata`: strip at
most one comment marker, and only when it stands at the start of the
line, then trim surrounding whitespace. -/
def format_metadata_claimed (line : List Char) : List Char :=
  if isPrefixList (("//").data) line = true then pyStrip (line.drop 2)
  else if isPrefixList (("#").data) line = true then pyStrip (line.drop 1)
  else pyStrip line

/-! ### JSON persistence model -/

/-- JSON values, as far as the converter's stored document uses them. -/
inductive Json where
  | str : List Char → Json
  | arr : List Json → Json
  | obj : List (String × Json) → Json

/-- `Snippet.model_dump`: the JSON object with the model's field order. -/
def snippetToJson (s : Snippet) : Json :=
  .obj [("title", .str s.title),
        ("description", .str s.description),
        ("code", .arr (s.code.map Json.str)),
        ("tags", .arr (s.tags.map Json.str)),
        ("author", .str s.author)]

/-- `Category.model_dump`: `categoryName` before `snippets`. -/
def categoryToJson (c : Category) : Json :=
  .obj [("categoryName", .str c.categoryName),
        ("snippets", .arr (c.snippets.map snippetToJson))]

/-- `JSONModel.model_dump_json`, at the level of JSON values. -/
def docToJson (doc : Document) : Json :=
  .arr (doc.map categoryToJson)

/-- Look a required field up in a JSON object (first binding wins);
a missing field is a schema violation. -/
def jsonField : List (String × Json) → String → Except ConvError Json
  | [], _ => .error .CorruptStateError
  | (k, v) :: rest, key => if k = key then .ok v else jsonField rest key

/-- A field declared `str` must hold a JSON string. -/
def jsonAsStr : Json → Except ConvError (List Char)
  | .str s => .ok s
  | _ => .error .CorruptStateError

/-- Validate every element of a `list[str]` field. -/
def decodeStrList : List Json → Except ConvError (List (List Char))
  | [] => .ok []
  | j :: js =>
    match jsonAsStr j, decodeStrList js with
    | .ok s, .ok ss => .ok (s :: ss)
    | _, _ => .error .CorruptStateError

/-- A field declared `list[str]` must hold a JSON array of strings. -/
def jsonAsStrList : Json → Except ConvError (List (List Char))
  | .arr xs => decodeStrList xs
  | _ => .error .CorruptStateError

/-- Schema validation of one snippet object (`Snippet.model_validate`):
all five fields must be present with their declared types. -/
def snippetOfJson (j : Json) : Except ConvError Snippet :=
  match j with
  | .obj fields =>
    match jsonField fields "title", jsonField fields "description",
          jsonField fields "code", jsonField fields "tags",
          jsonField fields "author" with
    | .ok jt, .ok jd, .ok jc, .ok jtg, .ok ja =>
      match jsonAsStr jt, jsonAsStr jd, jsonAsStrList jc, jsonAsStrList jtg, jsonAsStr ja with
      | .ok t, .ok d, .ok c, .ok tg, .ok a =>
        .ok { title := t, description := d, code := c, tags := tg, author := a }
      | _, _, _, _, _ => .error .CorruptStateError
    | _, _, _, _, _ => .error .CorruptStateError
  | _ => .error .CorruptStateError

/-- Validate every element of a `list[Snippet]` field. -/
def decodeSnippets : List Json → Except ConvError (List Snippet)
  | [] => .ok []
  | j :: js =>
    match snippetOfJson j, decodeSnippets js with
    | .ok s, .ok ss => .ok (s :: ss)
    | _, _ => .error .CorruptStateError

/-- A field declared `list[Snippet]` must hold a JSON array of valid
snippet objects. -/
def jsonAsSnippetList : Json → Except ConvError (List Snippet)
  | .arr xs => decodeSnippets xs
  | _ => .error .CorruptStateError

/-- Schema validation of one category object (`Category.model_validate`). -/
def categoryOfJson (j : Json) : Except ConvError Category :=
  match j with
  | .obj fields =>
    match jsonField fields "categoryName", jsonField fields "snippets" with
    | .ok jn, .ok js =>
      match jsonAsStr jn, jsonAsSnippetList js with
      | .ok n, .ok ss => .ok { categoryName := n, snippets := ss }
      | _, _ => .error .CorruptStateError
    | _, _ => .error .CorruptStateError
  | _ => .error .CorruptStateError

/-- Validate every element of the top-level array. -/
def decodeCategories : List Json → Except ConvError (List Category)
  | [] => .ok []
  | j :: js =>
    match categoryOfJson j, decodeCategories js with
    | .ok c, .ok cs => .ok (c :: cs)
    | _, _ => .error .CorruptStateError

/-- `JSONModel.model_validate_json`, at the level of JSON values: the
document must be an array of valid category objects. -/
def docOfJson : Json → Except ConvError Document
  | .arr xs => decodeCategories xs
  | _ => .error .CorruptStateError

/-! ### Orchestration with explicit write events -/

/-- An observable effect on the output file. -/
inductive FileEvent where
  | fileWrite (content : Json)

/-- `save_category_to_json` over an abstract output file (`none` when the
file does not exist, `some` its parsed JSON content otherwise): the list
of writes it performs together with its outcome.  The source validates
the stored document first and only writes, as its last statement, the
dump of the merged document; a validation failure therefore raises
before any write has happened. -/
def save_category_to_json (category_object : Category) (file : Option Json) :
    List FileEvent × Except ConvError Unit :=
  match file with
  | some stored =>
    match docOfJson stored with
    | .error e => ([], .error e)
    | .ok doc => ([.fileWrite (docToJson (mergeCategory doc category_object))], .ok ())
  | none => ([.fileWrite (docToJson [category_object])], .ok ())

/-- The `run()` orchestration around parse and save: each step is wrapped
in `try/except`, so an error ends the invocation with no further
effects; the writes of an invocation are those of a successful save. -/
def run_events (input : List Char) (file : Option Json) : List FileEvent :=
  match parse_code input none with
  | .error _ => []
  | .ok cat => (save_category_to_json cat file).1

/-! ### Sample data for concrete witnesses -/

/-- A concrete snippet used by the witnesses. -/
def snipA : Snippet :=
  { title := ("t1").data, description := ("d1").data, code := [("x").data]
    tags := [("g").data], author := ("a1").data }

/-- A second concrete snippet used by the witnesses. -/
def snipB : Snippet :=
  { title := ("t2").data, description := ("d2").data, code := [("y").data]
    tags := [("h").data], author := ("a2").data }

/-! ### Helper lemmas about the split -/

theorem splitCharList_ne_nil (sep : Char) (l : List Char) : splitCharList sep l ≠ [] := by
  cases l with
  | nil => simp [splitCharList]
  | cons c cs =>
    simp only [splitCharList]
    split
    · simp
    · split
      · simp
      · simp

theorem splitCharList_append_sep (sep : Char) (s : List Char) :
    splitCharList sep (s ++ [sep]) = splitCharList sep s ++ [[]] := by
  induction s with
  | nil => simp [splitCharList]
  | cons c cs ih =>
    rcases hrest : splitCharList sep cs with _ | ⟨l, ls⟩
    · exact absurd hrest (splitCharList_ne_nil sep cs)
    · by_cases hc : c = sep
      · subst hc
        simp [splitCharList, ih]
      · simp [splitCharList, hc, ih, hrest]

theorem length_ge_seven_shape (l : List (List Char)) (h : 7 ≤ l.length) :
    ∃ a b c d e f g rest, l = a :: b :: c :: d :: e :: f :: g :: rest := by
  rcases l with _ | ⟨a, _ | ⟨b, _ | ⟨c, _ | ⟨d, _ | ⟨e, _ | ⟨f, _ | ⟨g, rest⟩⟩⟩⟩⟩⟩⟩ <;>
    simp_all

/-! ### Helper lemmas about the parser -/

/-- When the input splits into at least seven lines, `parse_code` (with no
pre-existing category) returns exactly the category the source builds. -/
theorem parse_code_eval (s : List Char) (a b c d e f g : List Char) (rest : List (List Char))
    (h : splitCharList '\n' s = a :: b :: c :: d :: e :: f :: g :: rest) :
    parse_code s none = .ok
      { categoryName := format_metadata a
        snippets := [{ title := format_metadata b
                       description := format_metadata c
                       code := g :: rest
                       tags := (splitCharList ',' (format_metadata d)).map pyStrip
                       author := format_metadata e }] } := by
  unfold parse_code
  rw [h]
  simp [List.getD]

theorem parse_code_error_iff (s : List Char) :
    parse_code s none = .error .FormatError ↔ (splitCharList '\n' s).length < 7 := by
  constructor
  · intro herr
    by_contra hlen
    obtain ⟨a, b, c, d, e, f, g, rest, hshape⟩ :=
      length_ge_seven_shape (splitCharList '\n' s) (by omega)
    rw [parse_code_eval s a b c d e f g rest hshape] at herr
    exact Except.noConfusion herr
  · intro hlen
    unfold parse_code
    simp [hlen]

/-! ### Helper lemmas about the merge -/

theorem mergeCategory_not_found (doc : Document) (c : Category)
    (h : ∀ x ∈ doc, x.categoryName ≠ c.categoryName) :
    mergeCategory doc c = doc ++ [c] := by
  induction doc with
  | nil => rfl
  | cons d ds ih =>
    have hd : d.categoryName ≠ c.categoryName := h d (by simp)
    simp [mergeCategory, hd, ih (fun x hx => h x (by simp [hx]))]

theorem mergeCategory_found (pre : Document) (d : Category) (post : Document) (c : Category)
    (hpre : ∀ x ∈ pre, x.categoryName ≠ c.categoryName)
    (hd : d.categoryName = c.categoryName) :
    mergeCategory (pre ++ d :: post) c =
      pre ++ { d with snippets := d.snippets ++ c.snippets } :: post := by
  induction pre with
  | nil => simp [mergeCategory, hd]
  | cons p ps ih =>
    have hp : p.categoryName ≠ c.categoryName := hpre p (by simp)
    simp [mergeCategory, hp, ih (fun x hx => hpre x (by simp [hx]))]

theorem mergeCategory_names_subset (doc : Document) (c : Category) (n : List Char)
    (hn : n ∈ (mergeCategory doc c).map Category.categoryName) :
    n ∈ doc.map Category.categoryName ∨ n = c.categoryName := by
  induction doc with
  | nil => simpa [mergeCategory] using hn
  | cons d ds ih =>
    by_cases hd : d.categoryName = c.categoryName
    · simp only [mergeCategory, if_pos hd, List.map_cons, List.mem_cons] at hn
      rcases hn with h1 | h2
      · exact Or.inl (by simp [h1])
      · exact Or.inl (by simp [h2])
    · simp only [mergeCategory, if_neg hd, List.map_cons, List.mem_cons] at hn
      rcases hn with h1 | h2
      · exact Or.inl (by simp [h1])
      · rcases ih h2 with h3 | h4
        · exact Or.inl (by simp [h3])
        · exact Or.inr h4

/-! ### Helper lemma about first-occurrence replacement -/

theorem replaceFirst_eq_removeFirstOcc (l pat : List Char) (hpat : pat ≠ []) :
    replaceFirst l pat [] = removeFirstOcc l pat := by
  induction l with
  | nil =>
    rcases pat with _ | ⟨p, ps⟩
    · exact absurd rfl hpat
    · simp [replaceFirst, removeFirstOcc, findSub, isPrefixList]
  | cons c cs ih =>
    by_cases hp : isPrefixList pat (c :: cs) = true
    · simp [replaceFirst, removeFirstOcc, findSub, hp]
    · rw [replaceFirst, if_neg hp, ih]
      unfold removeFirstOcc
      rw [findSub, if_neg hp]
      rcases hfind : findSub pat cs with _ | i
      · simp
      · have h1 : i + 1 + pat.length = (i + pat.length) + 1 := by omega
        show c :: (List.take i cs ++ List.drop (i + pat.length) cs) =
          List.take (i + 1) (c :: cs) ++ List.drop (i + 1 + pat.length) (c :: cs)
        rw [List.take_succ_cons, List.cons_append, h1, List.drop_succ_cons]

/-! ### Round-trip lemmas -/

theorem decodeStrList_map_str (xs : List (List Char)) :
    decodeStrList (xs.map Json.str) = .ok xs := by
  induction xs with
  | nil => rfl
  | cons x xs ih => simp [decodeStrList, jsonAsStr, ih]

theorem snippetOfJson_toJson (s : Snippet) :
    snippetOfJson (snippetToJson s) = .ok s := by
  cases s with
  | mk t d c tg a =>
    simp [snippetToJson, snippetOfJson, jsonField, jsonAsStr, jsonAsStrList,
      decodeStrList_map_str]

theorem decodeSnippets_map (ss : List Snippet) :
    decodeSnippets (ss.map snippetToJson) = .ok ss := by
  induction ss with
  | nil => rfl
  | cons s ss ih => simp [decodeSnippets, snippetOfJson_toJson, ih]

theorem categoryOfJson_toJson (c : Category) :
    categoryOfJson (categoryToJson c) = .ok c := by
  cases c with
  | mk n ss =>
    simp [categoryToJson, categoryOfJson, jsonField, jsonAsStr, jsonAsSnippetList,
      decodeSnippets_map]

theorem decodeCategories_map (cs : Document) :
    decodeCategories (cs.map categoryToJson) = .ok cs := by
  induction cs with
  | nil => rfl
  | cons c cs ih => simp [decodeCategories, categoryOfJson_toJson, ih]

/-! ### The claims -/

/-- Claim C1: for every document and new category, `save_category_to_json`
(whose merge step is `mergeCategory`) appends the new category's
snippets, in order, to the end of the first category whose
`categoryName` matches exactly, leaving prior snippets and the other
categories unchanged; when no category matches, the new category is
appended at the end of the document with prior entries unchanged. -/
theorem merge_appends_to_first_match_or_appends_category (doc : Document) (c : Category) :
    (∀ pre d post, doc = pre ++ d :: post →
        (∀ x ∈ pre, x.categoryName ≠ c.categoryName) →
        d.categoryName = c.categoryName →
        mergeCategory doc c =
          pre ++ { d with snippets := d.snippets ++ c.snippets } :: post)
  ∧ ((∀ x ∈ doc, x.categoryName ≠ c.categoryName) →
        mergeCategory doc c = doc ++ [c]) := by
  constructor
  · intro pre d post hdoc hpre hd
    subst hdoc
    exact mergeCategory_found pre d post c hpre hd
  · exact mergeCategory_not_found doc c

/-- Witness for C1: merging a `Math` category into a document whose first
(and only) entry is named `Math` appends the snippet after the stored one. -/
theorem merge_appends_to_first_match_witness :
    mergeCategory [{ categoryName := ("Math").data, snippets := [snipA] }]
        { categoryName := ("Math").data, snippets := [snipB] }
      = [{ categoryName := ("Math").data, snippets := [snipA, snipB] }] :=
  (merge_appends_to_first_match_or_appends_category
      [{ categoryName := ("Math").data, snippets := [snipA] }]
      { categoryName := ("Math").data, snippets := [snipB] }).1
    [] { categoryName := ("Math").data, snippets := [snipA] } [] rfl (by simp) rfl

/-- Claim C2: `parse_code` fails with `FormatError` exactly when the
newline-split input has fewer than 7 segments; an input of exactly 6
lines fails, and one of exactly 7 lines succeeds with a code sequence
of length 1. -/
theorem parse_code_format_error_boundary (s : List Char) :
    (parse_code s none = .error .FormatError ↔ (splitCharList '\n' s).length < 7)
  ∧ ((splitCharList '\n' s).length = 6 → parse_code s none = .error .FormatError)
  ∧ ((splitCharList '\n' s).length = 7 →
      ∃ c sn, parse_code s none = .ok c ∧ c.snippets = [sn] ∧ sn.code.length = 1) := by
  refine ⟨parse_code_error_iff s, ?_, ?_⟩
  · intro h6
    exact (parse_code_error_iff s).2 (by omega)
  · intro h7
    obtain ⟨a, b, c, d, e, f, g, rest, hshape⟩ :=
      length_ge_seven_shape (splitCharList '\n' s) (by omega)
    have hr : rest = [] := by
      rw [hshape] at h7
      simpa using h7
    subst hr
    exact ⟨_, _, parse_code_eval s a b c d e f g [] hshape, rfl, rfl⟩

/-- Witness for C2: a 6-line input fails, a 7-line input succeeds with a
one-line code sequence. -/
theorem parse_code_format_error_boundary_witness :
    parse_code (("A\nB\nC\nD\nE\nF").data) none = .error .FormatError
  ∧ (∃ c sn, parse_code (("A\nB\nC\nD\nE\nF\nG").data) none = .ok c ∧
      c.snippets = [sn] ∧ sn.code.length = 1) :=
  ⟨(parse_code_format_error_boundary (("A\nB\nC\nD\nE\nF").data)).2.1 (by decide),
   (parse_code_format_error_boundary (("A\nB\nC\nD\nE\nF\nG").data)).2.2 (by decide)⟩

/-- Claim C3: on an input of `n ≥ 7` lines, the single parsed snippet's
code is the list of segments from index 6 onward, verbatim and in
order, so its length is `n - 6`. -/
theorem parse_code_copies_lines_verbatim (s : List Char)
    (h : 7 ≤ (splitCharList '\n' s).length) :
    ∃ c sn, parse_code s none = .ok c ∧ c.snippets = [sn] ∧
      sn.code = (splitCharList '\n' s).drop 6 ∧
      sn.code.length = (splitCharList '\n' s).length - 6 := by
  obtain ⟨a, b, c, d, e, f, g, rest, hshape⟩ := length_ge_seven_shape _ h
  refine ⟨_, _, parse_code_eval s a b c d e f g rest hshape, rfl, ?_, ?_⟩
  · rw [hshape]
    rfl
  · rw [hshape]
    simp

/-- Witness for C3: an 8-line input yields a 2-line code sequence equal to
the last two segments. -/
theorem parse_code_copies_lines_verbatim_witness :
    7 ≤ (splitCharList '\n' (("A\nB\nC\nD\nE\nF\nG\nH").data)).length
  ∧ (∃ c sn, parse_code (("A\nB\nC\nD\nE\nF\nG\nH").data) none = .ok c ∧ c.snippets = [sn] ∧
      sn.code = (splitCharList '\n' (("A\nB\nC\nD\nE\nF\nG\nH").data)).drop 6 ∧
      sn.code.length = (splitCharList '\n' (("A\nB\nC\nD\nE\nF\nG\nH").data)).length - 6) :=
  ⟨by decide, parse_code_copies_lines_verbatim (("A\nB\nC\nD\nE\nF\nG\nH").data) (by decide)⟩

/-- Claim C4 (counterexample): `format_metadata` removes the first `//`
anywhere in the line, not only at its start: on `"a//b"` the code
yields `"ab"` while the claimed start-anchored stripping yields
`"a//b"`. -/
theorem format_metadata_not_start_anchored :
    format_metadata (("a//b").data) = ("ab").data
  ∧ format_metadata_claimed (("a//b").data) = ("a//b").data
  ∧ format_metadata (("a//b").data) ≠ format_metadata_claimed (("a//b").data) := by
  decide

/-- Claim C4 (amended): the parsed field value equals the line with the
first occurrence of `//` anywhere in the line removed, then the first
occurrence of `#` in the resulting text removed, then surrounding
whitespace trimmed. -/
theorem format_metadata_removes_first_occurrences (line : List Char) :
    format_metadata line =
      pyStrip (removeFirstOcc (removeFirstOcc line (("//").data)) (("#").data)) := by
  unfold format_metadata
  rw [replaceFirst_eq_removeFirstOcc _ _ (by decide),
      replaceFirst_eq_removeFirstOcc _ _ (by decide)]

/-- Claim C5: the snippet's tags are the comma-split of the formatted
line 3, each element stripped of surrounding whitespace, empties kept;
concretely, the tag line `"a, b ,c"` parses to `["a","b","c"]`. -/
theorem parse_code_tags (s : List Char) (h : 7 ≤ (splitCharList '\n' s).length) :
    (∃ c sn, parse_code s none = .ok c ∧ c.snippets = [sn] ∧
        sn.tags = (splitCharList ','
          (format_metadata ((splitCharList '\n' s).getD 3 []))).map pyStrip)
  ∧ ((parse_code (("cat\nt\nd\na, b ,c\nau\n\nx").data) none).map
        (fun c => c.snippets.map Snippet.tags)
      = .ok [[("a").data, ("b").data, ("c").data]]) := by
  constructor
  · obtain ⟨a, b, c, d, e, f, g, rest, hshape⟩ := length_ge_seven_shape _ h
    refine ⟨_, _, parse_code_eval s a b c d e f g rest hshape, rfl, ?_⟩
    rw [hshape]
    rfl
  · decide

/-- Witness for C5: the tag equation instantiated on a concrete input
whose tag line is `"a, b ,c"`. -/
theorem parse_code_tags_witness :
    ∃ c sn, parse_code (("cat\nt\nd\na, b ,c\nau\n\nx").data) none = .ok c ∧
      c.snippets = [sn] ∧
      sn.tags = (splitCharList ','
        (format_metadata ((splitCharList '\n' (("cat\nt\nd\na, b ,c\nau\n\nx").data)).getD 3 []))).map pyStrip :=
  (parse_code_tags (("cat\nt\nd\na, b ,c\nau\n\nx").data) (by decide)).1

/-- Claim C6: if no two stored categories share a `categoryName`, the
document after the merge step of `save_category_to_json` still has
pairwise distinct category names. -/
theorem merge_preserves_unique_names (doc : Document) (c : Category)
    (h : (doc.map Category.categoryName).Nodup) :
    ((mergeCategory doc c).map Category.categoryName).Nodup := by
  induction doc with
  | nil => simp [mergeCategory]
  | cons d ds ih =>
    rw [List.map_cons, List.nodup_cons] at h
    obtain ⟨hd_notin, hds⟩ := h
    by_cases hd : d.categoryName = c.categoryName
    · simp only [mergeCategory, if_pos hd, List.map_cons, List.nodup_cons]
      exact ⟨hd_notin, hds⟩
    · simp only [mergeCategory, if_neg hd, List.map_cons, List.nodup_cons]
      refine ⟨?_, ih hds⟩
      intro hmem
      rcases mergeCategory_names_subset ds c _ hmem with h1 | h2
      · exact hd_notin h1
      · exact hd h2

/-- Witness for C6: merging a fresh name into a two-category document
with distinct names keeps the names pairwise distinct. -/
theorem merge_preserves_unique_names_witness :
    (([{ categoryName := ("a").data, snippets := [] },
       { categoryName := ("b").data, snippets := [] }].map Category.categoryName).Nodup)
  ∧ ((mergeCategory
        [{ categoryName := ("a").data, snippets := [] },
         { categoryName := ("b").data, snippets := [] }]
        { categoryName := ("c").data, snippets := [snipA] }).map Category.categoryName).Nodup :=
  ⟨by decide,
   merge_preserves_unique_names
     [{ categoryName := ("a").data, snippets := [] },
      { categoryName := ("b").data, snippets := [] }]
     { categoryName := ("c").data, snippets := [snipA] } (by decide)⟩

/-- Claim C7: serializing a document as `model_dump_json` does and
validating it back as `model_validate_json` does returns the same
document: same categories in the same order with the same snippets and
field values. -/
theorem document_json_roundtrip (doc : Document) :
    docOfJson (docToJson doc) = .ok doc := by
  simp [docToJson, docOfJson, decodeCategories_map]

/-- Claim C8: when parsing fails with `FormatError`, or the stored file
fails schema validation with `CorruptStateError`, the invocation
performs no write at all, so the output file's prior content stands. -/
theorem no_write_on_error (input : List Char) (file : Option Json) :
    (parse_code input none = .error .FormatError → run_events input file = [])
  ∧ (∀ j, file = some j → docOfJson j = .error .CorruptStateError →
      run_events input file = []) := by
  constructor
  · intro herr
    simp [run_events, herr]
  · intro j hfile herr
    subst hfile
    unfold run_events
    rcases hparse : parse_code input none with e | cat
    · rfl
    · simp [save_category_to_json, herr]

/-- Witness for C8: a one-line input fails to parse and produces no write
event. -/
theorem no_write_on_error_witness :
    parse_code (("x").data) none = .error .FormatError
  ∧ run_events (("x").data) none = [] :=
  ⟨by decide, (no_write_on_error (("x").data) none).1 (by decide)⟩

/-- Claim C9: two inputs of at least 7 lines that differ only in line 5
(the separator line) parse to equal categories: line 5 is discarded
unconditionally. -/
theorem separator_line_has_no_influence (a b x y : List Char)
    (l0 l1 l2 l3 l4 : List Char) (rest : List (List Char)) (hr : rest ≠ [])
    (ha : splitCharList '\n' a = l0 :: l1 :: l2 :: l3 :: l4 :: x :: rest)
    (hb : splitCharList '\n' b = l0 :: l1 :: l2 :: l3 :: l4 :: y :: rest) :
    parse_code a none = parse_code b none := by
  obtain ⟨g, rest2, hrest⟩ : ∃ g rest2, rest = g :: rest2 := by
    rcases rest with _ | ⟨g, rest2⟩
    · exact absurd rfl hr
    · exact ⟨g, rest2, rfl⟩
  subst hrest
  rw [parse_code_eval a l0 l1 l2 l3 l4 x g rest2 ha,
      parse_code_eval b l0 l1 l2 l3 l4 y g rest2 hb]

/-- Witness for C9: a blank and a non-blank separator line produce the
same parse result. -/
theorem separator_line_has_no_influence_witness :
    parse_code (("A\nB\nC\nD\nE\n\nG").data) none
      = parse_code (("A\nB\nC\nD\nE\nxx\nG").data) none :=
  separator_line_has_no_influence
    (("A\nB\nC\nD\nE\n\nG").data) (("A\nB\nC\nD\nE\nxx\nG").data)
    [] (("xx").data) (("A").data) (("B").data) (("C").data) (("D").data) (("E").data)
    [("G").data] (by decide) (by decide) (by decide)

/-- Claim C10: splitting appends an empty final segment for a trailing
newline, so that segment counts toward the 7-line minimum and is copied
into the code: the 6-visible-line input `"A\nB\nC\nD\nE\nF"` fails,
while the same text with a final newline parses with code `[""]`. -/
theorem trailing_newline_empty_segment (s : List Char) :
    (splitCharList '\n' (s ++ [('\n')]) = splitCharList '\n' s ++ [[]])
  ∧ ((splitCharList '\n' (("A\nB\nC\nD\nE\nF").data)).length = 6)
  ∧ (parse_code (("A\nB\nC\nD\nE\nF").data) none = .error .FormatError)
  ∧ ((parse_code (("A\nB\nC\nD\nE\nF\n").data) none).map
        (fun c => c.snippets.map Snippet.code)
      = .ok [[[]]]) :=
  ⟨splitCharList_append_sep '\n' s, by decide, by decide, by decide⟩

end Quicksnip
